import Mathlib

/-!
Verification of the tuftool delegated-targets editor (the remove-key command
and the delegation commands exercised by its test suite) against its
natural-language specification.

The command pipeline (argument struct, settings construction, stage ordering
and error-kind mapping) is translated from src/tuftool/src/remove_key_role.rs.
The tough library operations it calls (TargetsEditor, the canonical signer,
the repository loader and the outbound writer) are not part of this
repository snapshot, so they are modelled from the specification, as marked
on each such definition.
-/

namespace Tough

/-- Key identifiers: hex-encoded digests, modelled as strings. -/
abbrev KeyId := String

/-- Error kinds of the tuftool error enum used by the remove-key pipeline
(the snafu contexts applied in remove_key_role.rs). -/
inductive ErrKind where
  | TempDir
  | RepoLoad
  | EditorFromRepo
  | LoadMetadata
  | SignRepo
  | WriteRoles
  deriving DecidableEq, Repr

/-- Outcome of running a tuftool command process: normal success, an error of
one of the snafu kinds, or a process abort (a panic from an unwrap). -/
inductive Outcome (α : Type) where
  | ok (a : α)
  | err (k : ErrKind)
  | aborts
  deriving DecidableEq, Repr

/-- Expiration enforcement policy of the loader. The source library offers a
strict variant (Safe) and a lenient variant; remove_key_role.rs line 69 always
selects the strict one. -/
inductive ExpirationEnforcement where
  | safe
  | lenient
  deriving DecidableEq, Repr

/-- Command-line arguments of the remove-key subcommand
(struct RemoveKeyArgs, remove_key_role.rs lines 22-56). Key sources are
modelled by the key ids they resolve to, paths and urls by strings, and the
datetime by an abstract timestamp. The scheme of the metadata url is kept as
a separate field standing for metadata_base_url.scheme(). -/
structure RemoveKeyArgs where
  keys : List KeyId
  remove : KeyId
  expires : Nat
  version : Nat
  root : String
  metadata_base_url : String
  metadata_url_scheme : String
  outdir : String
  delegated_role : Option String
  deriving DecidableEq, Repr

/-- Loader settings as built by RemoveKeyArgs::run
(remove_key_role.rs lines 63-70). -/
structure Settings where
  rootPath : String
  metadata_base_url : String
  targets_base_url : String
  expiration_enforcement : ExpirationEnforcement
  deriving DecidableEq, Repr

/-- The settings literal of remove_key_role.rs lines 63-70: targets are not
used, so targets_base_url is set to the metadata url, and expiration
enforcement is the strict variant. -/
def RemoveKeyArgs.settings (a : RemoveKeyArgs) : Settings :=
  { rootPath := a.root
    metadata_base_url := a.metadata_base_url
    targets_base_url := a.metadata_base_url
    expiration_enforcement := .safe }

/-- Results of the effectful stages of one remove-key invocation. Each field
abstracts the Result of the corresponding call in remove_key_role.rs:
tempdir() (line 61), File::open of the root (line 64), Repository::load
(lines 78 and 86), TargetsEditor::from_repo (lines 81 and 89),
editor.remove_key (lines 102-110), .sign (line 113) and .write (line 117). -/
structure StageEnv where
  tempDirStage : Except Unit Unit
  openRootStage : Except Unit Unit
  loadRepoStage : Except Unit Unit
  fromRepoStage : Except Unit Unit
  removeKeyStage : Except Unit Unit
  signStage : Except Unit Unit
  writeStage : Except Unit Unit

/-- Body of with_targets_editor (remove_key_role.rs lines 98-123) together
with Repository::load and TargetsEditor::from_repo and their snafu contexts:
load failures become RepoLoad, editor construction failures EditorFromRepo,
remove_key failures LoadMetadata, signing failures SignRepo and write
failures WriteRoles. -/
def runStages (env : StageEnv) : Outcome Unit :=
  match env.loadRepoStage with
  | .error _ => .err .RepoLoad
  | .ok _ =>
    match env.fromRepoStage with
    | .error _ => .err .EditorFromRepo
    | .ok _ =>
      match env.removeKeyStage with
      | .error _ => .err .LoadMetadata
      | .ok _ =>
        match env.signStage with
        | .error _ => .err .SignRepo
        | .ok _ =>
          match env.writeStage with
          | .error _ => .err .WriteRoles
          | .ok _ => .ok ()

/-- RemoveKeyArgs::run (remove_key_role.rs lines 59-95): create the datastore
tempdir (TempDir error kind on failure), open the root file with unwrap
(process abort on failure), then branch on the url scheme; both branches run
the same load / editor / mutate / sign / write sequence, differing only in
the transport handed to the loader. -/
def RemoveKeyArgs.run (_a : RemoveKeyArgs) (env : StageEnv) : Outcome Unit :=
  match env.tempDirStage with
  | .error _ => .err .TempDir
  | .ok _ =>
    match env.openRootStage with
    | .error _ => .aborts
    | .ok _ =>
      if _a.metadata_url_scheme = "file" then
        runStages env
      else
        runStages env

/-- The delegated-role argument forwarded by with_targets_editor to
editor.remove_key (remove_key_role.rs lines 104-109): the match maps
Some(role) to Some(role.as_str()) and None to None. -/
def RemoveKeyArgs.roleArg (a : RemoveKeyArgs) : Option String :=
  match a.delegated_role with
  | some role => some role
  | none => none

/-- Modelled from the spec: a role specification inside a parent delegations
list (data model section 3): name, authorized key ids, threshold, path
patterns and terminating flag. The library type
tough::schema::DelegatedRole is not under src. -/
structure RoleSpec where
  name : String
  keyids : List KeyId
  threshold : Nat
  paths : List String
  terminating : Bool
  deriving DecidableEq, Repr

/-- Modelled from the spec: the delegations object of a targets payload
(section 3): a keys map, modelled by its domain of key ids, and an ordered
list of role specifications. The library type tough::schema::Delegations is
not under src. -/
structure Delegations where
  keys : List KeyId
  roles : List RoleSpec
  deriving DecidableEq, Repr

/-- First role specification carrying the given name, in delegation list
order. -/
def findRole (rs : List RoleSpec) (n : String) : Option RoleSpec :=
  rs.find? (fun s => s.name == n)

/-- Modelled from the spec: the remove_key editor operation (section 4.C);
TargetsEditor::remove_key of the tough library is not under src. With a
named child: delete the key id from the child authorized set, failing when
the key id is not currently authorized for the child or when the deletion
would leave threshold above the remaining key count; then keep a key id in
the keys map iff it is referenced by at least one surviving delegation. With
no child named: the key is removed with respect to the editor role itself,
from its own keys map. -/
def remove_key (d : Delegations) (k : KeyId) (role : Option String) :
    Option Delegations :=
  match role with
  | none => some { d with keys := d.keys.filter (fun x => x != k) }
  | some child =>
    match findRole d.roles child with
    | none => none
    | some spec =>
      if k ∈ spec.keyids then
        let newIds := spec.keyids.filter (fun x => x != k)
        if spec.threshold > newIds.length then none
        else
          let newRoles := d.roles.map
            (fun s => if s.name = child then { s with keyids := newIds } else s)
          some { keys := d.keys.filter
                   (fun x => newRoles.any (fun s => s.keyids.contains x))
                 roles := newRoles }
      else none

/-- Failure of the canonical signer (section 4.B). -/
inductive SignErr where
  | InsufficientSignatures
  deriving DecidableEq, Repr

/-- A signed metadata envelope, modelled by the list of distinct authorized
key ids whose signatures it carries. -/
structure Envelope where
  signatures : List KeyId
  deriving DecidableEq, Repr

/-- Insertion sort on key ids, used to order signatures deterministically. -/
def insertSorted (x : KeyId) : List KeyId → List KeyId
  | [] => [x]
  | y :: ys => if x ≤ y then x :: y :: ys else y :: insertSorted x ys

/-- Sort a list of key ids. -/
def sortKeyIds : List KeyId → List KeyId
  | [] => []
  | x :: xs => insertSorted x (sortKeyIds xs)

/-- Distinct key ids among the signing key sources that are authorized for
the target role specification. -/
def authorized_signers (signing : List KeyId) (spec : RoleSpec) : List KeyId :=
  (signing.filter (fun x => spec.keyids.contains x)).dedup

/-- Modelled from the spec: the canonical signer (section 4.B); the signing
path of the tough library is not under src. Unauthorized key ids are
discarded silently; the envelope is produced, signatures ordered by key id,
iff the number of distinct authorized signatures reaches the role
threshold, and otherwise signing fails with InsufficientSignatures. -/
def sign (signing : List KeyId) (spec : RoleSpec) : Except SignErr Envelope :=
  let authorized := authorized_signers signing spec
  if spec.threshold ≤ authorized.length then
    .ok { signatures := sortKeyIds authorized }
  else
    .error .InsufficientSignatures

/-- Forget the payloads of a stage result, keeping success or failure; used
to feed a modelled stage result into the pipeline environment. -/
def exceptUnit {ε α : Type} : Except ε α → Except Unit Unit
  | .ok _ => .ok ()
  | .error _ => .error ()

/-- Modelled from the spec: the outbound writer filename rule (section 4.F);
the write path of the tough library is not under src. A version-prefixed
filename when consistent snapshot naming is requested, the bare role
filename otherwise. -/
def write_filename (role : String) (version : Nat)
    (consistent_snapshot : Bool) : String :=
  if consistent_snapshot then
    toString version ++ "." ++ role ++ ".json"
  else
    role ++ ".json"

/-- The path written by with_targets_editor (remove_key_role.rs lines
115-120): the outdir joined with metadata, and the consistent snapshot flag
of write passed as the literal false. -/
def remove_key_write_path (a : RemoveKeyArgs) (role : String)
    (version : Nat) : String :=
  a.outdir ++ "/metadata/" ++ write_filename role version false

/-- The write path that claim C3 describes, following the spec words: the
filename mode is whichever mode the loaded root declares. Stated for
refinement comparison with remove_key_write_path. -/
def claimed_remove_key_write_path (a : RemoveKeyArgs)
    (rootConsistentSnapshot : Bool) (role : String) (version : Nat) : String :=
  a.outdir ++ "/metadata/" ++ write_filename role version rootConsistentSnapshot

/- Modelled from the spec: the delegation tree of a loaded repository,
rooted at the targets role (design note: the editor treats the delegation
graph as a tree keyed by role name). The loader and Repository type of the
tough library are not under src. A forest type is used instead of a nested
list so that all functions are structurally recursive. -/
mutual

inductive DelegationTree : Type where
  | node (name : String) (children : DelegationForest)

inductive DelegationForest : Type where
  | nil
  | cons (t : DelegationTree) (rest : DelegationForest)

end

/-- Name at the root of a delegation subtree. -/
def root_name : DelegationTree → String
  | .node n _ => n

/-- Immediate delegations of a subtree. -/
def tree_children : DelegationTree → DelegationForest
  | .node _ cs => cs

/-- Whether a forest is empty, that is whether a role has delegations of its
own. -/
def forest_is_nil : DelegationForest → Bool
  | .nil => true
  | .cons _ _ => false

/- All role names of a subtree, root included, and of a forest. -/
mutual

def tree_names : DelegationTree → List String
  | .node n cs => n :: forest_names cs

def forest_names : DelegationForest → List String
  | .nil => []
  | .cons t ts => tree_names t ++ forest_names ts

end

/-- Modelled from the spec: Repository::delegated_role after a reload
(is_some view). A delegated role is any role reachable strictly below the
targets root of the loaded tree. -/
def delegated_role (t : DelegationTree) (n : String) : Bool :=
  decide (n ∈ forest_names (tree_children t))

/- Modelled from the spec: the add_role editor operation (section 4.C) as it
shapes the reloaded tree; TargetsEditor::add_role of the tough library is
not under src. The child delegation specification is inserted into the
delegations list of the role named parent. -/
mutual

def add_role : DelegationTree → String → String → DelegationTree
  | .node n cs, parent, child =>
    if n = parent then .node n (.cons (.node child .nil) cs)
    else .node n (add_role_forest cs parent child)

def add_role_forest : DelegationForest → String → String → DelegationForest
  | .nil, _, _ => .nil
  | .cons t ts, parent, child =>
    .cons (add_role t parent child) (add_role_forest ts parent child)

end

/-- Drop every immediate child whose root carries the given name. -/
def drop_children : DelegationForest → String → DelegationForest
  | .nil, _ => .nil
  | .cons t ts, c =>
    if root_name t = c then drop_children ts c
    else .cons t (drop_children ts c)

/-- Whether some immediate child of the forest carries the given name and
has no delegations of its own (the non-recursive removal precondition). -/
def forest_has_leaf_child : DelegationForest → String → Bool
  | .nil, _ => false
  | .cons t ts, c =>
    (decide (root_name t = c) && forest_is_nil (tree_children t))
      || forest_has_leaf_child ts c

/- Whether the tree has a node named parent with an immediate childless
delegate named child. -/
mutual

def tree_has_edge : DelegationTree → String → String → Bool
  | .node n cs, parent, child =>
    (decide (n = parent) && forest_has_leaf_child cs child)
      || forest_has_edge cs parent child

def forest_has_edge : DelegationForest → String → String → Bool
  | .nil, _, _ => false
  | .cons t ts, parent, child =>
    tree_has_edge t parent child || forest_has_edge ts parent child

end

/- Removal of the child delegation at every node named parent, as it shapes
the reloaded tree: the removed subtree is no longer reachable. -/
mutual

def remove_role_tree : DelegationTree → String → String → DelegationTree
  | .node n cs, parent, child =>
    if n = parent then .node n (drop_children cs child)
    else .node n (remove_role_forest cs parent child)

def remove_role_forest : DelegationForest → String → String → DelegationForest
  | .nil, _, _ => .nil
  | .cons t ts, parent, child =>
    .cons (remove_role_tree t parent child) (remove_role_forest ts parent child)

end

/-- Modelled from the spec: the non-recursive remove_role editor operation
(section 4.C); TargetsEditor::remove_role of the tough library is not under
src. Preconditions: the child is an immediate delegate of the parent, and
without the recursive flag the removal fails when the child has delegations
of its own. -/
def remove_role (t : DelegationTree) (parent child : String) :
    Option DelegationTree :=
  if tree_has_edge t parent child then some (remove_role_tree t parent child)
  else none

/-- Whether the given name occurs anywhere in the subtree. -/
def tree_contains (t : DelegationTree) (n : String) : Bool :=
  decide (n ∈ tree_names t)

/-- Drop every immediate child whose subtree reaches the given name. -/
def drop_reaching : DelegationForest → String → DelegationForest
  | .nil, _ => .nil
  | .cons t ts, c =>
    if tree_contains t c then drop_reaching ts c
    else .cons t (drop_reaching ts c)

/-- Modelled from the spec: the recursive remove operation issued on the
signing role at the root of the tree (scenario S6); the recursive branch of
TargetsEditor::remove_role is not under src. Every delegation through which
the named role is reachable is dropped, so the whole subtree containing it
disappears from the reloaded repository. -/
def remove_role_recursive (t : DelegationTree) (child : String) :
    DelegationTree :=
  match t with
  | .node n cs => .node n (drop_reaching cs child)

/-- A target file descriptor: length plus digest (section 3). -/
structure TargetDesc where
  length : Nat
  digest : Nat
  deriving DecidableEq, Repr

/-- Modelled from the spec: the update_targets editor operation (section
4.C); the scan path of the tough library is not under src. The targets map
is replaced by descriptors computed from the scanned directory, one entry
per regular file, keyed by relative path, carrying the file length and its
digest under the hash function of the role. -/
def update_targets (scan : List (String × String)) (h : String → Nat) :
    List (String × TargetDesc) :=
  scan.map (fun e => (e.1, { length := e.2.length, digest := h e.2 }))

/-- Modelled from the spec: Repository::read_target after a reload; the
target fetch path of the tough library is not under src. The target path is
resolved in the published targets map, the stored bytes are fetched, checked
against the recorded length and digest, and returned exactly. -/
def read_target (meta : List (String × TargetDesc))
    (store : List (String × String)) (h : String → Nat) (p : String) :
    Option String :=
  match List.lookup p meta with
  | none => none
  | some d =>
    match List.lookup p store with
    | none => none
    | some bs =>
      if bs.length = d.length ∧ h bs = d.digest then some bs else none

/-- Outcome of one add-role invocation, by the stage it reaches: the
mutation is staged in the editor, then the re-signed metadata is published
by the final update step (signing and writing the updated envelope). -/
inductive AddRoleOutcome where
  | accepted
  | rejectedAtMutation
  | failsAtFinalUpdate
  deriving DecidableEq, Repr

/-- Modelled from the spec: the add_role mutation staged by the editor
(section 4.C); TargetsEditor::add_role of the tough library is not under
src. The child specification is appended to the delegations list and the
child keys are merged into the keys map; the mutation is rejected only when
the child name already appears among the delegations. -/
def add_role_edit (d : Delegations) (childSpec : RoleSpec)
    (childKeys : List KeyId) : Option Delegations :=
  if d.roles.any (fun r => r.name == childSpec.name) then none
  else some { keys := d.keys ++ childKeys, roles := d.roles ++ [childSpec] }

/-- Modelled from the spec: the add-role operation pipeline (section 4.D):
stage the mutation in an editor for the signing role, then perform the final
update step, signing the mutated payload of the signing role with the caller
keys against the role specification its parent declares. -/
def add_role_pipeline (parentSpec : RoleSpec) (d : Delegations)
    (childSpec : RoleSpec) (childKeys : List KeyId)
    (signing : List KeyId) : AddRoleOutcome :=
  match add_role_edit d childSpec childKeys with
  | none => .rejectedAtMutation
  | some _ =>
    match sign signing parentSpec with
    | .error _ => .failsAtFinalUpdate
    | .ok _ => .accepted

/-- Example arguments for a remove-key invocation over a file url. -/
def aEx : RemoveKeyArgs :=
  { keys := ["rootkey"]
    remove := "k1"
    expires := 100
    version := 1
    root := "root.json"
    metadata_base_url := "file:///repo/metadata"
    metadata_url_scheme := "file"
    outdir := "out"
    delegated_role := some "A" }

/-- Example arguments with the delegated-role argument omitted. -/
def aNoneEx : RemoveKeyArgs :=
  { aEx with delegated_role := none }

/-- Example stage environment in which every effectful stage succeeds. -/
def envAllOkEx : StageEnv :=
  { tempDirStage := .ok ()
    openRootStage := .ok ()
    loadRepoStage := .ok ()
    fromRepoStage := .ok ()
    removeKeyStage := .ok ()
    signStage := .ok ()
    writeStage := .ok () }

/-- Example stage environment in which the signing stage fails. -/
def envSignFailEx : StageEnv :=
  { envAllOkEx with signStage := .error () }

/-- Example stage environment in which opening the root file fails. -/
def envBadRootEx : StageEnv :=
  { envAllOkEx with openRootStage := .error () }

/-- Example delegation specification of role A authorized for keys k0 and k1
at threshold 1. -/
def specAEx : RoleSpec :=
  { name := "A", keyids := ["k0", "k1"], threshold := 1, paths := ["data/"]
    terminating := false }

/-- Example delegations object of a signing role delegating to A. -/
def dEx : Delegations :=
  { keys := ["k0", "k1"], roles := [specAEx] }

/-- Role A after the removal of k1 from its authorized set. -/
def specAEx' : RoleSpec :=
  { specAEx with keyids := ["k0"] }

/-- The delegations object produced by removing k1 from role A in dEx. -/
def dEx' : Delegations :=
  { keys := ["k0"], roles := [specAEx'] }

/-- Example delegation specification for a fresh child role B. -/
def specBEx : RoleSpec :=
  { name := "B", keyids := ["kb"], threshold := 1, paths := [], terminating := false }

/-- Example delegations object of the editor for role A, with no delegations
yet. -/
def dAEmptyEx : Delegations :=
  { keys := [], roles := [] }

/-- Example delegation chain targets to A to B. -/
def chainEx : DelegationTree :=
  .node "targets" (.cons (.node "A" (.cons (.node "B" .nil) .nil)) .nil)

/-- The chain after the subtree of B is removed below A. -/
def chainRemovedEx : DelegationTree :=
  .node "targets" (.cons (.node "A" .nil) .nil)

/-- Bytes of the example target file of scenario S4. -/
def exampleFileContent : String :=
  "This is an example target file."

/-- Example scanned directory containing the single target file4.txt. -/
def scanEx : List (String × String) :=
  [("file4.txt", exampleFileContent)]

/-- C9: every invocation of the remove-key command builds loader settings
with strict expiration enforcement and with the targets base url equal to
the metadata base url; since the settings are a function of the argument
struct alone and hold for every argument value, the command has no way to
opt out of either choice. -/
theorem remove_key_settings_invariant :
    ∀ a : RemoveKeyArgs,
      (RemoveKeyArgs.settings a).expiration_enforcement =
          ExpirationEnforcement.safe ∧
        (RemoveKeyArgs.settings a).targets_base_url = a.metadata_base_url := by
  intro a
  exact ⟨rfl, rfl⟩

/-- C3 counterexample: with a root that declares consistent snapshot naming,
the claim predicts the version-prefixed filename, but the remove-key command
passes the consistent snapshot flag as the literal false, so the path it
writes differs from the claimed one. -/
theorem remove_key_write_path_cex :
    remove_key_write_path aEx "A" 2 ≠
      claimed_remove_key_write_path aEx true "A" 2 := by
  decide

/-- C3 amended: the remove-key command always writes the bare role filename
under the outdir metadata directory, regardless of the snapshot mode the
loaded root declares, because the write call hardcodes the consistent
snapshot flag to false. -/
theorem remove_key_write_path_always_plain (a : RemoveKeyArgs)
    (role : String) (v : Nat) (rootMode : Bool) :
    remove_key_write_path a role v =
        a.outdir ++ "/metadata/" ++ (role ++ ".json") ∧
      remove_key_write_path a role v =
        claimed_remove_key_write_path a false role v ∧
      (rootMode = true →
        claimed_remove_key_write_path a rootMode role v =
          a.outdir ++ "/metadata/" ++ (toString v ++ "." ++ role ++ ".json")) := by
  refine ⟨rfl, rfl, ?_⟩
  intro h
  subst h
  rfl

/-- C3 amended witness: the amended statement evaluated at a concrete
invocation. -/
theorem remove_key_write_path_always_plain_witness :
    remove_key_write_path aEx "A" 2 = "out" ++ "/metadata/" ++ ("A" ++ ".json") ∧
      claimed_remove_key_write_path aEx true "A" 2 =
        "out" ++ "/metadata/" ++ (toString 2 ++ "." ++ "A" ++ ".json") :=
  ⟨(remove_key_write_path_always_plain aEx "A" 2 true).1,
    (remove_key_write_path_always_plain aEx "A" 2 true).2.2 rfl⟩

/-- C8: when the tempdir stage succeeds but the root file cannot be opened,
the remove-key command aborts by panic (the unwrap on File::open) instead of
returning any of the specified error kinds. -/
theorem remove_key_bad_root_aborts (a : RemoveKeyArgs) (env : StageEnv)
    (htd : env.tempDirStage = .ok ())
    (hor : env.openRootStage = .error ()) :
    a.run env = .aborts ∧ ∀ k, a.run env ≠ .err k := by
  have h1 : a.run env = .aborts := by
    unfold RemoveKeyArgs.run
    rw [htd, hor]
  refine ⟨h1, ?_⟩
  intro k hc
  rw [h1] at hc
  exact Outcome.noConfusion hc

/-- C8 witness: the abort observed at a concrete invocation whose root path
does not open. -/
theorem remove_key_bad_root_aborts_witness :
    aEx.run envBadRootEx = .aborts :=
  (remove_key_bad_root_aborts aEx envBadRootEx rfl rfl).1

/-- C5: once the tempdir stage and the root open succeed, the remove-key
command maps each failure to the error kind of the stage where it occurs, in
pipeline order, and succeeds exactly when every stage succeeds, so no error
is retried or swallowed. -/
theorem remove_key_error_kind_pipeline (a : RemoveKeyArgs) (env : StageEnv)
    (htd : env.tempDirStage = .ok ()) (hor : env.openRootStage = .ok ()) :
    (env.loadRepoStage = .error () → a.run env = .err .RepoLoad) ∧
      (env.loadRepoStage = .ok () → env.fromRepoStage = .error () →
        a.run env = .err .EditorFromRepo) ∧
      (env.loadRepoStage = .ok () → env.fromRepoStage = .ok () →
        env.removeKeyStage = .error () → a.run env = .err .LoadMetadata) ∧
      (env.loadRepoStage = .ok () → env.fromRepoStage = .ok () →
        env.removeKeyStage = .ok () → env.signStage = .error () →
        a.run env = .err .SignRepo) ∧
      (env.loadRepoStage = .ok () → env.fromRepoStage = .ok () →
        env.removeKeyStage = .ok () → env.signStage = .ok () →
        env.writeStage = .error () → a.run env = .err .WriteRoles) ∧
      (a.run env = .ok () ↔
        env.loadRepoStage = .ok () ∧ env.fromRepoStage = .ok () ∧
          env.removeKeyStage = .ok () ∧ env.signStage = .ok () ∧
          env.writeStage = .ok ()) := by
  obtain ⟨td, oro, lr, fr, rk, sg, wr⟩ := env
  simp only at htd hor
  subst htd hor
  cases lr with
  | error e => cases e; simp [RemoveKeyArgs.run, runStages]
  | ok u =>
    cases u
    cases fr with
    | error e => cases e; simp [RemoveKeyArgs.run, runStages]
    | ok u =>
      cases u
      cases rk with
      | error e => cases e; simp [RemoveKeyArgs.run, runStages]
      | ok u =>
        cases u
        cases sg with
        | error e => cases e; simp [RemoveKeyArgs.run, runStages]
        | ok u =>
          cases u
          cases wr with
          | error e => cases e; simp [RemoveKeyArgs.run, runStages]
          | ok u => cases u; simp [RemoveKeyArgs.run, runStages]

/-- C5 witness: a concrete invocation whose signing stage fails surfaces the
SignRepo error kind. -/
theorem remove_key_error_kind_pipeline_witness :
    aEx.run envSignFailEx = .err .SignRepo :=
  (remove_key_error_kind_pipeline aEx envSignFailEx rfl rfl).2.2.2.1
    rfl rfl rfl rfl

/-- C10: the delegated-role argument is forwarded to remove_key unchanged,
so an omitted argument reaches the editor as None; in that case the key id
is removed with respect to the signing role itself, from its own keys map,
and the delegations list of child roles is left untouched. -/
theorem remove_key_role_argument_forwarding (a : RemoveKeyArgs)
    (d : Delegations) :
    a.roleArg = a.delegated_role ∧
      (a.delegated_role = none →
        ∃ d', remove_key d a.remove a.roleArg = some d' ∧
          d'.roles = d.roles ∧ a.remove ∉ d'.keys) := by
  have hforward : a.roleArg = a.delegated_role := by
    cases h : a.delegated_role <;> simp [RemoveKeyArgs.roleArg, h]
  refine ⟨hforward, ?_⟩
  intro hnone
  rw [hforward, hnone]
  refine ⟨{ d with keys := d.keys.filter (fun x => x != a.remove) }, rfl, rfl, ?_⟩
  intro hmem
  have := (List.mem_filter.mp hmem).2
  simp at this

/-- C10 witness: the forwarding statement evaluated at a concrete invocation
that omits the delegated-role argument. -/
theorem remove_key_role_argument_forwarding_witness :
    aNoneEx.roleArg = aNoneEx.delegated_role ∧
      ∃ d', remove_key dEx aNoneEx.remove aNoneEx.roleArg = some d' ∧
        d'.roles = dEx.roles ∧ aNoneEx.remove ∉ d'.keys :=
  ⟨(remove_key_role_argument_forwarding aNoneEx dEx).1,
    (remove_key_role_argument_forwarding aNoneEx dEx).2 rfl⟩

/-- When every signing key source resolves to a single key id that the role
specification does not authorize, no authorized signer remains. -/
theorem authorized_signers_nil (signing : List KeyId) (spec : RoleSpec)
    (k : KeyId) (hk : k ∉ spec.keyids) (honly : ∀ x ∈ signing, x = k) :
    authorized_signers signing spec = [] := by
  unfold authorized_signers
  have hfil : signing.filter (fun x => spec.keyids.contains x) = [] := by
    rw [List.filter_eq_nil_iff]
    intro a ha
    rw [honly a ha]
    simp [hk]
  rw [hfil]
  rfl

/-- Signing with keys that resolve only to an unauthorized key id fails with
InsufficientSignatures whenever the role threshold is at least one. -/
theorem sign_only_unauthorized_fails (signing : List KeyId) (spec : RoleSpec)
    (k : KeyId) (hk : k ∉ spec.keyids) (honly : ∀ x ∈ signing, x = k)
    (hthr : 1 ≤ spec.threshold) :
    sign signing spec = .error .InsufficientSignatures := by
  unfold sign
  rw [authorized_signers_nil signing spec k hk honly]
  have : ¬ spec.threshold ≤ ([] : List KeyId).length := by
    simp
    omega
  rw [if_neg this]

/-- Removing a key from a child role updates every entry of that name in the
delegations list, so the child specification found afterwards is the found
one with the filtered key ids. -/
theorem findRole_map_update (rs : List RoleSpec) (r : String)
    (newIds : List KeyId) :
    findRole (rs.map
        (fun s => if s.name = r then { s with keyids := newIds } else s)) r =
      (findRole rs r).map (fun s => { s with keyids := newIds }) := by
  induction rs with
  | nil => rfl
  | cons s rs ih =>
    by_cases h : s.name = r
    · simp [findRole, List.find?_cons, h]
    · simp only [findRole, List.map_cons] at *
      rw [if_neg h]
      rw [List.find?_cons_of_neg, List.find?_cons_of_neg]
      · exact ih
      · simp [h]
      · simp [h]

/-- After remove_key deletes key k from child role r, the specification of r
in the resulting delegations no longer authorizes k. -/
theorem remove_key_not_authorized (d d' : Delegations) (r : String)
    (k : KeyId) (spec' : RoleSpec)
    (hrm : remove_key d k (some r) = some d')
    (hfind : findRole d'.roles r = some spec') :
    k ∉ spec'.keyids := by
  simp only [remove_key] at hrm
  cases hf : findRole d.roles r with
  | none => rw [hf] at hrm; exact Option.noConfusion hrm
  | some spec =>
    rw [hf] at hrm
    simp only at hrm
    split at hrm
    · split at hrm
      · exact Option.noConfusion hrm
      · have hroles : d'.roles = d.roles.map
            (fun s => if s.name = r
              then { s with keyids := spec.keyids.filter (fun x => x != k) }
              else s) := by
          cases hrm
          rfl
        rw [hroles, findRole_map_update, hf] at hfind
        have hspec' : spec' =
            { spec with keyids := spec.keyids.filter (fun x => x != k) } := by
          cases hfind
          rfl
        rw [hspec']
        intro hmem
        have := (List.mem_filter.mp hmem).2
        simp at this
    · exact Option.noConfusion hrm

/-- C1: after remove-key has deleted key k from delegated role r, signing
the metadata of r with a key set resolving only to k yields fewer than
threshold valid authorized signatures, the signer fails with
InsufficientSignatures, and the command surfaces the SignRepo error kind. -/
theorem removed_key_cannot_resign (d d' : Delegations) (r : String)
    (k : KeyId) (spec' : RoleSpec) (signing : List KeyId)
    (a : RemoveKeyArgs) (env : StageEnv)
    (hrm : remove_key d k (some r) = some d')
    (hfind : findRole d'.roles r = some spec')
    (hthr : 1 ≤ spec'.threshold)
    (honly : ∀ x ∈ signing, x = k)
    (htd : env.tempDirStage = .ok ()) (hor : env.openRootStage = .ok ())
    (hlr : env.loadRepoStage = .ok ()) (hfr : env.fromRepoStage = .ok ())
    (hrk : env.removeKeyStage = .ok ())
    (hsg : env.signStage = exceptUnit (sign signing spec')) :
    (authorized_signers signing spec').length < spec'.threshold ∧
      sign signing spec' = .error .InsufficientSignatures ∧
      a.run env = .err .SignRepo := by
  have hk : k ∉ spec'.keyids := remove_key_not_authorized d d' r k spec' hrm hfind
  have hnil : authorized_signers signing spec' = [] :=
    authorized_signers_nil signing spec' k hk honly
  have hsign : sign signing spec' = .error .InsufficientSignatures :=
    sign_only_unauthorized_fails signing spec' k hk honly hthr
  refine ⟨?_, hsign, ?_⟩
  · rw [hnil]
    simpa using hthr
  · have hsg' : env.signStage = .error () := by
      rw [hsg, hsign]
      rfl
    obtain ⟨td, oro, lr, fr, rk, sg, wr⟩ := env
    simp only at htd hor hlr hfr hrk hsg'
    subst htd hor hlr hfr hrk hsg'
    simp [RemoveKeyArgs.run, runStages]

/-- C1 witness: the failure observed at the concrete repository in which k1
was removed from role A and the re-signing key set holds only k1. -/
theorem removed_key_cannot_resign_witness :
    sign ["k1"] specAEx' = .error .InsufficientSignatures ∧
      aEx.run envSignFailEx = .err .SignRepo :=
  ⟨(removed_key_cannot_resign dEx dEx' "A" "k1" specAEx' ["k1"] aEx
      envSignFailEx (by decide) (by decide) (by decide) (by decide)
      rfl rfl rfl rfl rfl rfl).2.1,
    (removed_key_cannot_resign dEx dEx' "A" "k1" specAEx' ["k1"] aEx
      envSignFailEx (by decide) (by decide) (by decide) (by decide)
      rfl rfl rfl rfl rfl rfl).2.2⟩

/-- C4: with role A authorized for two keys and k1 removed, an attempted
add-role of B to A signed with k1 only stages its mutation successfully in
the editor, and the observable failure occurs at the final update step of
the pipeline, where the mutated payload is re-signed. -/
theorem add_role_after_remove_key_fails_at_update (parentSpec : RoleSpec)
    (d : Delegations) (childSpec : RoleSpec) (childKeys : List KeyId)
    (signing : List KeyId) (k1 : KeyId)
    (hk : k1 ∉ parentSpec.keyids)
    (hthr : 1 ≤ parentSpec.threshold)
    (honly : ∀ x ∈ signing, x = k1)
    (hfresh : ∀ s ∈ d.roles, s.name ≠ childSpec.name) :
    (∃ d', add_role_edit d childSpec childKeys = some d') ∧
      add_role_pipeline parentSpec d childSpec childKeys signing =
        .failsAtFinalUpdate := by
  have hedit : add_role_edit d childSpec childKeys =
      some { keys := d.keys ++ childKeys, roles := d.roles ++ [childSpec] } := by
    unfold add_role_edit
    rw [if_neg]
    intro hany
    obtain ⟨s, hs, hname⟩ := List.any_eq_true.mp hany
    exact hfresh s hs (by simpa using hname)
  refine ⟨⟨_, hedit⟩, ?_⟩
  unfold add_role_pipeline
  rw [hedit, sign_only_unauthorized_fails signing parentSpec k1 hk honly hthr]

/-- C4 witness: the scenario at concrete data, role A left with key k0 only
and the add-role of B signed with the removed key k1. -/
theorem add_role_after_remove_key_fails_at_update_witness :
    (∃ d', add_role_edit dAEmptyEx specBEx ["kb"] = some d') ∧
      add_role_pipeline specAEx' dAEmptyEx specBEx ["kb"] ["k1"] =
        .failsAtFinalUpdate :=
  add_role_after_remove_key_fails_at_update specAEx' dAEmptyEx specBEx
    ["kb"] ["k1"] "k1" (by decide) (by decide) (by decide) (by decide)

/-- The targets map built from a scan keeps the scanned paths, each mapping
to the descriptor computed from the scanned bytes. -/
theorem lookup_update_targets (scan : List (String × String))
    (h : String → Nat) (p : String) :
    List.lookup p (update_targets scan h) =
      (List.lookup p scan).map
        (fun bs => ({ length := bs.length, digest := h bs } : TargetDesc)) := by
  induction scan with
  | nil => rfl
  | cons e l ih =>
    by_cases hp : p = e.1
    · simp [update_targets, List.lookup, hp]
    · simp only [update_targets, List.lookup] at *
      have hbeq : (p == e.1) = false := by simp [hp]
      rw [hbeq]
      simpa [update_targets] using ih

/-- C7: after update-delegated-targets rebuilds the targets map from a scan
whose directory holds file4.txt with the example bytes, and the scanned
files are published, reading file4.txt from the reloaded repository returns
exactly those bytes. -/
theorem update_delegated_targets_roundtrip (scan : List (String × String))
    (h : String → Nat)
    (hlookup : List.lookup "file4.txt" scan = some exampleFileContent) :
    read_target (update_targets scan h) scan h "file4.txt" =
      some exampleFileContent := by
  unfold read_target
  rw [lookup_update_targets, hlookup]
  simp

/-- C7 witness: the round trip evaluated at the concrete scanned directory
of scenario S4. -/
theorem update_delegated_targets_roundtrip_witness :
    read_target (update_targets scanEx String.length) scanEx String.length
      "file4.txt" = some exampleFileContent :=
  update_delegated_targets_roundtrip scanEx String.length rfl

/-- A name occurring below the root of a subtree occurs in the subtree. -/
theorem mem_tree_of_mem_children (t : DelegationTree) (c : String)
    (h : c ∈ forest_names (tree_children t)) : c ∈ tree_names t := by
  cases t with
  | node n cs =>
    simp only [tree_children] at h
    simp [tree_names]
    exact Or.inr h

/- Inserting child c under a present parent makes c a delegated role of the
resulting tree, and the forest version of the same statement. -/
mutual

theorem add_role_mem_tree : ∀ (t : DelegationTree) (p c : String),
    p ∈ tree_names t → c ∈ forest_names (tree_children (add_role t p c))
  | .node n cs, p, c, hp => by
    by_cases h : n = p
    · simp [add_role, h, tree_children, forest_names, tree_names]
    · have hp' : p ∈ forest_names cs := by
        rcases List.mem_cons.mp (by simpa [tree_names] using hp) with h1 | h1
        · exact absurd h1.symm h
        · exact h1
      simpa [add_role, h, tree_children] using add_role_mem_forest cs p c hp'

theorem add_role_mem_forest : ∀ (cs : DelegationForest) (p c : String),
    p ∈ forest_names cs → c ∈ forest_names (add_role_forest cs p c)
  | .nil, p, c, hp => by simp [forest_names] at hp
  | .cons t ts, p, c, hp => by
    simp only [add_role_forest, forest_names, List.mem_append]
    rcases List.mem_append.mp (by simpa [forest_names] using hp) with h1 | h1
    · exact Or.inl (mem_tree_of_mem_children _ c (add_role_mem_tree t p c h1))
    · exact Or.inr (add_role_mem_forest ts p c h1)

end

/-- C6 part of the development appears further below with the other claim
theorems; the next lemmas support the removal part of C2. Dropping subtrees
never increases the number of occurrences of a name. -/
theorem count_drop_children_le : ∀ (cs : DelegationForest) (c x : String),
    (forest_names (drop_children cs c)).count x ≤ (forest_names cs).count x
  | .nil, _, _ => Nat.le_refl _
  | .cons t ts, c, x => by
    by_cases h : root_name t = c
    · simp only [drop_children, if_pos h, forest_names, List.count_append]
      exact Nat.le_trans (count_drop_children_le ts c x) (Nat.le_add_left _ _)
    · simp only [drop_children, if_neg h, forest_names, List.count_append]
      exact Nat.add_le_add_left (count_drop_children_le ts c x) _

/- Removal never increases the number of occurrences of a name, in tree and
forest form. -/
mutual

theorem count_remove_tree_le : ∀ (t : DelegationTree) (p c x : String),
    (tree_names (remove_role_tree t p c)).count x ≤ (tree_names t).count x
  | .node n cs, p, c, x => by
    by_cases h : n = p
    · simp only [remove_role_tree, if_pos h, tree_names, List.count_cons]
      exact Nat.add_le_add_right (count_drop_children_le cs c x) _
    · simp only [remove_role_tree, if_neg h, tree_names, List.count_cons]
      exact Nat.add_le_add_right (count_remove_forest_le cs p c x) _

theorem count_remove_forest_le : ∀ (cs : DelegationForest) (p c x : String),
    (forest_names (remove_role_forest cs p c)).count x ≤
      (forest_names cs).count x
  | .nil, _, _, _ => Nat.le_refl _
  | .cons t ts, p, c, x => by
    simp only [remove_role_forest, forest_names, List.count_append]
    exact Nat.add_le_add (count_remove_tree_le t p c x)
      (count_remove_forest_le ts p c x)

end

/-- Dropping the children named c strictly decreases the occurrences of c
when some immediate childless child carries that name. -/
theorem count_drop_children_lt : ∀ (cs : DelegationForest) (c : String),
    forest_has_leaf_child cs c = true →
    (forest_names (drop_children cs c)).count c < (forest_names cs).count c
  | .nil, c, hlc => by simp [forest_has_leaf_child] at hlc
  | .cons t ts, c, hlc => by
    by_cases h : root_name t = c
    · have h1 : 1 ≤ (tree_names t).count c := by
        cases t with
        | node m ds =>
          simp only [root_name] at h
          simp [tree_names, List.count_cons, h]
      simp only [drop_children, if_pos h, forest_names, List.count_append]
      have h2 := count_drop_children_le ts c c
      omega
    · have hlc' : forest_has_leaf_child ts c = true := by
        simp only [forest_has_leaf_child, Bool.or_eq_true,
          Bool.and_eq_true, decide_eq_true_eq] at hlc
        rcases hlc with ⟨h1, _⟩ | h1
        · exact absurd h1 h
        · exact h1
      simp only [drop_children, if_neg h, forest_names, List.count_append]
      exact Nat.add_lt_add_left (count_drop_children_lt ts c hlc') _

/- A removable edge names a parent that is present, in tree and forest
form. -/
mutual

theorem edge_parent_mem_tree : ∀ (t : DelegationTree) (p c : String),
    tree_has_edge t p c = true → p ∈ tree_names t
  | .node n cs, p, c, he => by
    simp only [tree_has_edge, Bool.or_eq_true, Bool.and_eq_true,
      decide_eq_true_eq] at he
    simp only [tree_names, List.mem_cons]
    rcases he with ⟨h1, _⟩ | h1
    · exact Or.inl h1.symm
    · exact Or.inr (edge_parent_mem_forest cs p c h1)

theorem edge_parent_mem_forest : ∀ (cs : DelegationForest) (p c : String),
    forest_has_edge cs p c = true → p ∈ forest_names cs
  | .nil, p, c, he => by simp [forest_has_edge] at he
  | .cons t ts, p, c, he => by
    simp only [forest_has_edge, Bool.or_eq_true] at he
    simp only [forest_names, List.mem_append]
    rcases he with h1 | h1
    · exact Or.inl (edge_parent_mem_tree t p c h1)
    · exact Or.inr (edge_parent_mem_forest ts p c h1)

end

/- Under unique role names, removing an existing childless edge to c
strictly decreases the occurrences of c, in tree and forest form. -/
mutual

theorem count_remove_tree_lt : ∀ (t : DelegationTree) (p c : String),
    (tree_names t).Nodup → tree_has_edge t p c = true →
    (tree_names (remove_role_tree t p c)).count c < (tree_names t).count c
  | .node n cs, p, c, hnd, he => by
    have hnd' := List.nodup_cons.mp (by simpa [tree_names] using hnd)
    by_cases h : n = p
    · by_cases hlc : forest_has_leaf_child cs c = true
      · simp only [remove_role_tree, if_pos h, tree_names, List.count_cons]
        exact Nat.add_lt_add_right (count_drop_children_lt cs c hlc) _
      · have hfe : forest_has_edge cs p c = true := by
          simp only [tree_has_edge, Bool.or_eq_true, Bool.and_eq_true] at he
          rcases he with ⟨_, h2⟩ | h2
          · exact absurd h2 hlc
          · exact h2
        exact absurd (edge_parent_mem_forest cs p c hfe) (h ▸ hnd'.1)
    · have hfe : forest_has_edge cs p c = true := by
        simp only [tree_has_edge, Bool.or_eq_true, Bool.and_eq_true,
          decide_eq_true_eq] at he
        rcases he with ⟨h1, _⟩ | h1
        · exact absurd h1 h
        · exact h1
      simp only [remove_role_tree, if_neg h, tree_names, List.count_cons]
      exact Nat.add_lt_add_right (count_remove_forest_lt cs p c hnd'.2 hfe) _

theorem count_remove_forest_lt : ∀ (cs : DelegationForest) (p c : String),
    (forest_names cs).Nodup → forest_has_edge cs p c = true →
    (forest_names (remove_role_forest cs p c)).count c <
      (forest_names cs).count c
  | .nil, p, c, _, he => by simp [forest_has_edge] at he
  | .cons t ts, p, c, hnd, he => by
    have hnd' := List.nodup_append.mp (by simpa [forest_names] using hnd)
    simp only [remove_role_forest, forest_names, List.count_append]
    simp only [forest_has_edge, Bool.or_eq_true] at he
    rcases he with h1 | h1
    · exact Nat.add_lt_add_of_lt_of_le
        (count_remove_tree_lt t p c hnd'.1 h1) (count_remove_forest_le ts p c c)
    · exact Nat.add_lt_add_of_le_of_lt
        (count_remove_tree_le t p c c) (count_remove_forest_lt ts p c hnd'.2.1 h1)

end

/-- A name absent from a subtree is not a delegated role of it. -/
theorem delegated_role_false_of_not_mem (t : DelegationTree) (c : String)
    (h : c ∉ tree_names t) : delegated_role t c = false := by
  cases t with
  | node n cs =>
    simp only [tree_names, List.mem_cons, not_or] at h
    simp [delegated_role, tree_children, h.2]

/-- C2: for every repository tree, inserting child c under a present parent
p and reloading makes delegated_role answer positively for c; and when the
tree carries unique role names (the editor treats the delegation graph as a
tree keyed by role name), a successful removal of the edge from p to c
followed by a reload makes delegated_role answer negatively for c. -/
theorem add_remove_role_reload (t : DelegationTree) (p c : String) :
    (p ∈ tree_names t → delegated_role (add_role t p c) c = true) ∧
      (∀ t', (tree_names t).Nodup → remove_role t p c = some t' →
        delegated_role t' c = false) := by
  constructor
  · intro hp
    have hmem := add_role_mem_tree t p c hp
    simp only [delegated_role]
    exact decide_eq_true hmem
  · intro t' hnd hrm
    unfold remove_role at hrm
    by_cases he : tree_has_edge t p c = true
    · rw [if_pos he] at hrm
      have ht' : t' = remove_role_tree t p c := by
        cases hrm
        rfl
      subst ht'
      have hlt := count_remove_tree_lt t p c hnd he
      have hle : (tree_names t).count c ≤ 1 :=
        List.nodup_iff_count_le_one.mp hnd c
      have h0 : (tree_names (remove_role_tree t p c)).count c = 0 := by omega
      exact delegated_role_false_of_not_mem _ _ (List.count_eq_zero.mp h0)
    · rw [if_neg he] at hrm
      exact Option.noConfusion hrm

/-- C2 witness: both directions evaluated on the concrete chain targets to A
to B, adding another delegate under A and removing the edge from A to B. -/
theorem add_remove_role_reload_witness :
    delegated_role (add_role chainEx "A" "B") "B" = true ∧
      delegated_role chainRemovedEx "B" = false :=
  ⟨(add_remove_role_reload chainEx "A" "B").1 (by decide),
    (add_remove_role_reload chainEx "A" "B").2 chainRemovedEx (by decide) rfl⟩

/-- C6: on the delegation chain targets to A to B, a recursive remove of B
issued on the signing role targets leaves a reloaded repository in which
neither A nor B is a delegated role. -/
theorem recursive_remove_scenario :
    delegated_role (remove_role_recursive chainEx "B") "A" = false ∧
      delegated_role (remove_role_recursive chainEx "B") "B" = false := by
  decide

end Tough
